import Mathlib

/-!
Shallow embedding of the BinaryDiskSpectrum notebook: CGS constants,
accretion-rate helpers, the steady-state disk temperature profile, the
Planck spectrum, the radial integration loop of `disk_spectrum`, and the
top-level `plot_spectrum` composition.  Machine floats are modelled as
real numbers; the `while R < Rout` loop is modelled by its iteration
count (the least step index at which the loop condition fails).
-/

namespace BinaryDiskSpectrum

noncomputable section

/-- Gravitational constant, cgs. -/
def G : ℝ := 6.67e-8

/-- Solar mass in grams. -/
def Msun : ℝ := 2e33

/-- Stefan-Boltzmann constant, cgs. -/
def sb : ℝ := 5.67e-5

/-- Speed of light, cgs. -/
def c : ℝ := 3e10

/-- Planck constant, cgs. -/
def h : ℝ := 6.626e-27

/-- Boltzmann constant, cgs. -/
def k : ℝ := 1.38e-16

/-- One year in seconds. -/
def year : ℝ := 3.15e7

/-- Salpeter time in seconds. -/
def tsal : ℝ := 5e7 * year

/-- erg to eV conversion factor. -/
def erg : ℝ := 6.242e11

/-- `Mdot_acc(M, edd_frac) = edd_frac * M / tsal`. -/
def Mdot_acc (M edd_frac : ℝ) : ℝ := edd_frac * M / tsal

/-- `Risco(M) = 12 * G * M / c**2`. -/
def Risco (M : ℝ) : ℝ := 12 * G * M / c ^ 2

/-- `HillR(q) = 0.49 * q**(2/3) / (0.6 * q**(2/3) + log(1 + q**(1/3)))`. -/
def HillR (q : ℝ) : ℝ :=
  0.49 * q ^ ((2 : ℝ) / 3) / (0.6 * q ^ ((2 : ℝ) / 3) + Real.log (1 + q ^ ((1 : ℝ) / 3)))

/-- `Tstar(R0, M, Mdot) = (3*G*M*Mdot / (8*pi*R0**3*sb)) ** 0.25`. -/
def Tstar (R0 M Mdot : ℝ) : ℝ :=
  (3 * G * M * Mdot / (8 * Real.pi * R0 ^ 3 * sb)) ^ ((1 : ℝ) / 4)

/-- `disk_temperature(R, R0, M, Mdot) = Tstar(R0,M,Mdot) * ((R0/R)**3 * (1 - sqrt(R0/R))) ** 0.25`. -/
def disk_temperature (R R0 M Mdot : ℝ) : ℝ :=
  Tstar R0 M Mdot * ((R0 / R) ^ 3 * (1 - Real.sqrt (R0 / R))) ^ ((1 : ℝ) / 4)

/-- `planck_spectrum(T, nu) = 2*h*nu**3/c**2 / (exp(h*nu/(k*T)) - 1)`. -/
def planck_spectrum (T nu : ℝ) : ℝ :=
  2 * h * nu ^ 3 / c ^ 2 / (Real.exp (h * nu / (k * T)) - 1)

/-- The i-th entry of `logspace(12, 19, 999)`: `10 ** (12 + 7*i/998)`. -/
def nu_edge (i : ℕ) : ℝ := (10 : ℝ) ^ ((12 : ℝ) + 7 * (i : ℝ) / 998)

/-- `nu_v = logspace(12, 19, 999)`: the 999 frequency bin edges. -/
def nu_v : List ℝ := (List.range 999).map nu_edge

/-- The i-th bin center `0.5 * (nu_v[1:] + nu_v[:-1])[i]`. -/
def nu_center (i : ℕ) : ℝ := 0.5 * (nu_edge (i + 1) + nu_edge i)

/-- `nu_c`: the 998 frequency bin centers. -/
def nu_c : List ℝ := (List.range 998).map nu_center

/-- Radius at loop iteration `n` of `disk_spectrum`: the loop starts at
`R = R0 * 1.0001` and does `R *= 1.0 + delta` once per iteration. -/
def stepR (R0 δ : ℝ) (n : ℕ) : ℝ := R0 * 1.0001 * (1 + δ) ^ n

/-- Number of iterations of the `while R < Rout` loop: the least step
index at which the loop condition fails. -/
def numSteps (R0 Rout δ : ℝ) : ℕ := sInf {n : ℕ | ¬ stepR R0 δ n < Rout}

/-- The `if Rout < R0: print(...)` warning branch of `disk_spectrum`. -/
def warns (R0 Rout : ℝ) : Prop := Rout < R0

/-- Accumulated intensity at frequency `nu`: the loop adds
`2*pi*R*dR*planck_spectrum(disk_temperature(R, R0, M, Mdot), nu)` with
`dR = R*delta` at each iteration. -/
def Inu_at (M Mdot R0 Rout δ nu : ℝ) : ℝ :=
  ∑ n ∈ Finset.range (numSteps R0 Rout δ),
    2 * Real.pi * stepR R0 δ n * (stepR R0 δ n * δ) *
      planck_spectrum (disk_temperature (stepR R0 δ n) R0 M Mdot) nu

/-- The intensity array `Inu` returned by `disk_spectrum`, one entry per
bin center. -/
def disk_spectrum_Inu (M Mdot R0 Rout δ : ℝ) : List ℝ :=
  (List.range 998).map fun i => Inu_at M Mdot R0 Rout δ (nu_center i)

/-- The quantities computed by `plot_spectrum` before plotting. -/
structure SpectrumResult where
  M1 : ℝ
  M2 : ℝ
  Mdot1 : ℝ
  Mdot2 : ℝ
  Mdot : ℝ
  a0 : ℝ
  nuv : List ℝ
  Lnu1 : List ℝ
  Lnu2 : List ℝ
  Lnu3 : List ℝ
  Lnutot : List ℝ

/-- The computational core of `plot_spectrum(M, q, pref_acc, Notm)`:
derived masses, accretion rates, separation, the three disk spectra and
their elementwise combination into the total. -/
def plot_spectrum_core (M q pref_acc Notm : ℝ) : SpectrumResult :=
  let Mg := M * Msun
  let M1 := Mg / (1 + q)
  let M2 := M1 * q
  let eta := q / (1 + q) ^ 2
  let edd_frac_1 := (1 + q) / (1 + pref_acc)
  let edd_frac_2 := pref_acc * edd_frac_1 / q
  let Mdot1 := Mdot_acc M1 edd_frac_1
  let Mdot2 := Mdot_acc M2 edd_frac_2
  let Mdot := Mdot_acc Mg 1.0
  let a0 := G * Mg / c ^ 2 * (5 / (128 * Real.pi * eta * 4 * Notm)) ^ (-(2 : ℝ) / 5)
  let Inu1 := disk_spectrum_Inu M1 Mdot1 (Risco M1) (a0 - HillR q * a0) 0.001
  let Inu2 := disk_spectrum_Inu M2 Mdot2 (Risco M2) (HillR q * a0) 0.001
  let Inu3 := disk_spectrum_Inu Mg Mdot (a0 + HillR q * a0) (1e6 * a0) 0.001
  let Lnu1 := List.zipWith (fun I ν => Real.pi * I * ν) Inu1 nu_c
  let Lnu2 := List.zipWith (fun I ν => Real.pi * I * ν) Inu2 nu_c
  let Lnu3 := List.zipWith (fun I ν => Real.pi * I * ν) Inu3 nu_c
  let Lnutot := List.zipWith (· + ·) (List.zipWith (· + ·) Lnu1 Lnu2) Lnu3
  ⟨M1, M2, Mdot1, Mdot2, Mdot, a0, nu_v, Lnu1, Lnu2, Lnu3, Lnutot⟩

/-! ## Helper lemmas -/

/-- `zipWith` of two maps over the same list is a single map. -/
theorem zipWith_map_same {α β γ δ : Type} (f : β → γ → δ) (g1 : α → β) (g2 : α → γ)
    (l : List α) :
    List.zipWith f (l.map g1) (l.map g2) = l.map fun i => f (g1 i) (g2 i) := by
  induction l with
  | nil => rfl
  | cons a l ih => simp [ih]

/-- `getD` of a map over `List.range` evaluates the mapped function. -/
theorem getD_map_range (g : ℕ → ℝ) (n i : ℕ) (hi : i < n) :
    (((List.range n).map g).getD i 0) = g i := by
  simp [List.getD_eq_getElem?_getD, List.getElem?_map, List.getElem?_range, hi]

/-- If the loop exit condition already holds at the starting radius, the
loop performs zero iterations. -/
theorem numSteps_eq_zero {R0 Rout δ : ℝ} (hout : Rout ≤ R0 * 1.0001) :
    numSteps R0 Rout δ = 0 := by
  apply Nat.sInf_eq_zero.mpr
  left
  show ¬ stepR R0 δ 0 < Rout
  simp only [stepR, pow_zero, mul_one, not_lt]
  exact hout

/-- A zero-iteration loop leaves the intensity accumulator at zero in
every frequency bin. -/
theorem disk_spectrum_Inu_eq_zero {M Mdot R0 Rout δ : ℝ} (hd : numSteps R0 Rout δ = 0) :
    disk_spectrum_Inu M Mdot R0 Rout δ = List.replicate 998 0 := by
  have hz : ∀ nu, Inu_at M Mdot R0 Rout δ nu = 0 := by
    intro nu; simp [Inu_at, hd]
  simp [disk_spectrum_Inu, hz]

/-- For a positive starting radius and a positive step fraction, some
step index satisfies the loop exit condition. -/
theorem loop_reaches_exit (R0 Rout δ : ℝ) (hR0 : 0 < R0) (hδ : 0 < δ) :
    {n : ℕ | ¬ stepR R0 δ n < Rout}.Nonempty := by
  obtain ⟨n, hn⟩ := pow_unbounded_of_one_lt (Rout / (R0 * 1.0001)) (by linarith : (1 : ℝ) < 1 + δ)
  refine ⟨n, ?_⟩
  have hpos : (0 : ℝ) < R0 * 1.0001 := by positivity
  have h2 := (div_lt_iff₀ hpos).mp hn
  simp only [Set.mem_setOf_eq, stepR, not_lt]
  nlinarith

/-- `s ↦ s^6 - s^7` is strictly monotone on `[0, 6/7]`. -/
theorem poly_strictMono : StrictMonoOn (fun s : ℝ => s ^ 6 - s ^ 7) (Set.Icc 0 (6 / 7)) := by
  apply strictMonoOn_of_deriv_pos (convex_Icc _ _)
  · exact ((continuous_pow 6).sub (continuous_pow 7)).continuousOn
  · intro x hx
    rw [interior_Icc] at hx
    have hd : deriv (fun s : ℝ => s ^ 6 - s ^ 7) x = 6 * x ^ 5 - 7 * x ^ 6 := by
      have h1 := (hasDerivAt_pow 6 x).sub (hasDerivAt_pow 7 x)
      simpa using h1.deriv
    rw [hd]
    have hx0 : 0 < x := hx.1
    have hx1 : x < 6 / 7 := hx.2
    nlinarith [pow_pos hx0 5]

/-- The temperature profile rewritten through `s = sqrt(R0/R)`:
`(R0/R)^3 * (1 - s) = s^6 - s^7`. -/
theorem temp_as_poly (R R0 M Mdot : ℝ) (hx : 0 ≤ R0 / R) :
    disk_temperature R R0 M Mdot
      = Tstar R0 M Mdot *
        (Real.sqrt (R0 / R) ^ 6 - Real.sqrt (R0 / R) ^ 7) ^ ((1 : ℝ) / 4) := by
  have hs2 : Real.sqrt (R0 / R) ^ 2 = R0 / R := Real.sq_sqrt hx
  have inner : (R0 / R) ^ 3 * (1 - Real.sqrt (R0 / R))
      = Real.sqrt (R0 / R) ^ 6 - Real.sqrt (R0 / R) ^ 7 := by
    calc (R0 / R) ^ 3 * (1 - Real.sqrt (R0 / R))
        = (Real.sqrt (R0 / R) ^ 2) ^ 3 * (1 - Real.sqrt (R0 / R)) := by rw [hs2]
      _ = Real.sqrt (R0 / R) ^ 6 - Real.sqrt (R0 / R) ^ 7 := by ring
  rw [disk_temperature, inner]

/-- The inner-edge temperature scale is positive for positive inputs. -/
theorem Tstar_pos (R0 M Mdot : ℝ) (hR0 : 0 < R0) (hM : 0 < M) (hMd : 0 < Mdot) :
    0 < Tstar R0 M Mdot := by
  rw [Tstar]
  apply Real.rpow_pos_of_pos
  have hG : (0 : ℝ) < G := by norm_num [G]
  have hsb : (0 : ℝ) < sb := by norm_num [sb]
  have hpi := Real.pi_pos
  positivity

/-! ## Claims -/

/-- Claim C1, counterexample to the claim as stated: with `R0 = 1`,
`M = Mdot = 1`, the radii `400/361 < 100/81` both exceed `R0`, yet the
temperature at the larger radius is strictly larger, so
`disk_temperature` is not strictly decreasing on all of `R > R0`. -/
theorem C1_counterexample :
    (1 : ℝ) < 400 / 361 ∧ (400 / 361 : ℝ) < 100 / 81 ∧
      disk_temperature (400 / 361) 1 1 1 < disk_temperature (100 / 81) 1 1 1 := by
  refine ⟨by norm_num, by norm_num, ?_⟩
  rw [disk_temperature, disk_temperature]
  have e1 : (1 : ℝ) / (400 / 361) = (19 / 20) ^ 2 := by norm_num
  have e2 : (1 : ℝ) / (100 / 81) = (9 / 10) ^ 2 := by norm_num
  rw [e1, e2, Real.sqrt_sq (by norm_num : (0 : ℝ) ≤ 19 / 20),
    Real.sqrt_sq (by norm_num : (0 : ℝ) ≤ 9 / 10)]
  refine mul_lt_mul_of_pos_left ?_ (Tstar_pos 1 1 1 one_pos one_pos one_pos)
  exact Real.rpow_lt_rpow (by norm_num) (by norm_num) (by norm_num)

/-- Claim C1 (amended): for fixed `R0, M, Mdot > 0`, the temperature
profile `disk_temperature(R, R0, M, Mdot)` is strictly decreasing in `R`
for `R ≥ (49/36) * R0` (it peaks at `R = (49/36) * R0`, not at `R0`),
approaches `0` as `R → R0` from above, and decays as the power law
`R^(-3/4)` for large `R`: the ratio to `(R0/R)^(3/4)` tends to `Tstar`. -/
theorem C1_temperature_profile (R0 M Mdot : ℝ) (hR0 : 0 < R0) (hM : 0 < M) (hMd : 0 < Mdot) :
    (∀ R1 R2 : ℝ, 49 / 36 * R0 ≤ R1 → R1 < R2 →
        disk_temperature R2 R0 M Mdot < disk_temperature R1 R0 M Mdot) ∧
    Filter.Tendsto (fun R => disk_temperature R R0 M Mdot)
      (nhdsWithin R0 (Set.Ioi R0)) (nhds 0) ∧
    Filter.Tendsto (fun R => disk_temperature R R0 M Mdot / (R0 / R) ^ ((3 : ℝ) / 4))
      Filter.atTop (nhds (Tstar R0 M Mdot)) := by
  refine ⟨?_, ?_, ?_⟩
  · intro R1 R2 h49 h12
    have hR1 : 0 < R1 := lt_of_lt_of_le (by linarith) h49
    have hR2 : 0 < R2 := lt_trans hR1 h12
    have hx1pos : 0 < R0 / R1 := div_pos hR0 hR1
    have hx2pos : 0 < R0 / R2 := div_pos hR0 hR2
    have hx21 : R0 / R2 < R0 / R1 := div_lt_div_of_pos_left hR0 hR1 h12
    have hx1le : R0 / R1 ≤ 36 / 49 := by
      rw [div_le_div_iff₀ hR1 (by norm_num)]
      linarith
    have hs1le : Real.sqrt (R0 / R1) ≤ 6 / 7 := by
      have h67 : Real.sqrt (36 / 49) = 6 / 7 := by
        rw [show (36 / 49 : ℝ) = (6 / 7) ^ 2 by norm_num, Real.sqrt_sq (by norm_num)]
      calc Real.sqrt (R0 / R1) ≤ Real.sqrt (36 / 49) := Real.sqrt_le_sqrt hx1le
        _ = 6 / 7 := h67
    have hs21 : Real.sqrt (R0 / R2) < Real.sqrt (R0 / R1) :=
      Real.sqrt_lt_sqrt hx2pos.le hx21
    have hs2mem : Real.sqrt (R0 / R2) ∈ Set.Icc (0 : ℝ) (6 / 7) :=
      ⟨Real.sqrt_nonneg _, le_of_lt (lt_of_lt_of_le hs21 hs1le)⟩
    have hs1mem : Real.sqrt (R0 / R1) ∈ Set.Icc (0 : ℝ) (6 / 7) :=
      ⟨Real.sqrt_nonneg _, hs1le⟩
    have hpoly := poly_strictMono hs2mem hs1mem hs21
    have hp2nonneg : 0 ≤ Real.sqrt (R0 / R2) ^ 6 - Real.sqrt (R0 / R2) ^ 7 := by
      have h1 : Real.sqrt (R0 / R2) ≤ 1 := le_trans hs2mem.2 (by norm_num)
      have h2 : (0 : ℝ) ≤ Real.sqrt (R0 / R2) := Real.sqrt_nonneg _
      nlinarith [pow_nonneg h2 6]
    have hrpow := Real.rpow_lt_rpow hp2nonneg hpoly (by norm_num : (0 : ℝ) < 1 / 4)
    rw [temp_as_poly R2 R0 M Mdot hx2pos.le, temp_as_poly R1 R0 M Mdot hx1pos.le]
    exact mul_lt_mul_of_pos_left hrpow (Tstar_pos R0 M Mdot hR0 hM hMd)
  · have t1 : Filter.Tendsto (fun R : ℝ => R0 / R) (nhdsWithin R0 (Set.Ioi R0)) (nhds 1) := by
      have hc : ContinuousAt (fun R : ℝ => R0 / R) R0 :=
        continuousAt_const.div continuousAt_id (ne_of_gt hR0)
      have hcomp := hc.tendsto
      rw [div_self (ne_of_gt hR0)] at hcomp
      exact hcomp.mono_left nhdsWithin_le_nhds
    have t2 : Filter.Tendsto (fun R : ℝ => (R0 / R) ^ 3 * (1 - Real.sqrt (R0 / R)))
        (nhdsWithin R0 (Set.Ioi R0)) (nhds 0) := by
      have hc : ContinuousAt (fun x : ℝ => x ^ 3 * (1 - Real.sqrt x)) 1 :=
        (continuous_pow 3).continuousAt.mul
          (continuousAt_const.sub Real.continuous_sqrt.continuousAt)
      have hcomp := hc.tendsto.comp t1
      simp only [Function.comp_def, Real.sqrt_one, one_pow, sub_self, mul_zero] at hcomp
      exact hcomp
    have t3 : Filter.Tendsto (fun y : ℝ => y ^ ((1 : ℝ) / 4)) (nhds 0) (nhds 0) := by
      have hc := Real.continuousAt_rpow_const 0 ((1 : ℝ) / 4) (Or.inr (by norm_num))
      have hcomp := hc.tendsto
      rw [Real.zero_rpow (by norm_num : (1 : ℝ) / 4 ≠ 0)] at hcomp
      exact hcomp
    have t4 := t3.comp t2
    simp only [Function.comp_def] at t4
    have t5 := t4.const_mul (Tstar R0 M Mdot)
    rw [mul_zero] at t5
    simp only [disk_temperature]
    exact t5
  · have E : (fun R => Tstar R0 M Mdot * (1 - Real.sqrt (R0 / R)) ^ ((1 : ℝ) / 4))
        =ᶠ[Filter.atTop] fun R => disk_temperature R R0 M Mdot / (R0 / R) ^ ((3 : ℝ) / 4) := by
      filter_upwards [Filter.eventually_ge_atTop (max R0 1)] with R hR
      have hRpos : (0 : ℝ) < R := lt_of_lt_of_le one_pos (le_trans (le_max_right _ _) hR)
      have hx : 0 < R0 / R := div_pos hR0 hRpos
      have hx1 : R0 / R ≤ 1 := by
        rw [div_le_one hRpos]
        exact le_trans (le_max_left _ _) hR
      have hs1 : Real.sqrt (R0 / R) ≤ 1 := by
        rw [show (1 : ℝ) = Real.sqrt 1 by rw [Real.sqrt_one]]
        exact Real.sqrt_le_sqrt hx1
      have hsplit : ((R0 / R) ^ 3 * (1 - Real.sqrt (R0 / R))) ^ ((1 : ℝ) / 4)
          = (R0 / R) ^ ((3 : ℝ) / 4) * (1 - Real.sqrt (R0 / R)) ^ ((1 : ℝ) / 4) := by
        rw [Real.mul_rpow (by positivity) (by linarith)]
        congr 1
        rw [← Real.rpow_natCast (R0 / R) 3, ← Real.rpow_mul hx.le]
        norm_num
      have hne : (R0 / R) ^ ((3 : ℝ) / 4) ≠ 0 := ne_of_gt (Real.rpow_pos_of_pos hx _)
      rw [disk_temperature, hsplit, eq_comm, div_eq_iff hne]
      ring
    have r1 : Filter.Tendsto (fun R : ℝ => R0 / R) Filter.atTop (nhds 0) :=
      tendsto_const_nhds.div_atTop Filter.tendsto_id
    have r2 : Filter.Tendsto (fun R : ℝ => Real.sqrt (R0 / R)) Filter.atTop (nhds 0) := by
      have hcomp := Real.continuous_sqrt.continuousAt.tendsto.comp r1
      simp only [Function.comp_def, Real.sqrt_zero] at hcomp
      exact hcomp
    have r3 : Filter.Tendsto (fun R : ℝ => 1 - Real.sqrt (R0 / R)) Filter.atTop (nhds 1) := by
      have hcomp := r2.const_sub 1
      rw [sub_zero] at hcomp
      exact hcomp
    have r4 : Filter.Tendsto (fun R : ℝ => (1 - Real.sqrt (R0 / R)) ^ ((1 : ℝ) / 4))
        Filter.atTop (nhds 1) := by
      have hc := Real.continuousAt_rpow_const 1 ((1 : ℝ) / 4) (Or.inl one_ne_zero)
      have hcomp := hc.tendsto.comp r3
      simp only [Function.comp_def, Real.one_rpow] at hcomp
      exact hcomp
    have r5 := r4.const_mul (Tstar R0 M Mdot)
    rw [mul_one] at r5
    exact r5.congr' E

/-- Witness for C1: a concrete instance of the strict-decrease part at
`R0 = M = Mdot = 1`, `R1 = 2`, `R2 = 3`. -/
theorem C1_witness : disk_temperature 3 1 1 1 < disk_temperature 2 1 1 1 :=
  (C1_temperature_profile 1 1 1 (by norm_num) (by norm_num) (by norm_num)).1 2 3
    (by norm_num) (by norm_num)

/-- Claim C2: for mass ratio `q > 0` and preferential-accretion factor
`p ≥ 1`, the per-black-hole accretion rates computed by `plot_spectrum`
sum exactly to the binary total accretion rate `Mdot_acc(M, 1.0)`. -/
theorem C2_accretion_partition (M q p N : ℝ) (hq : 0 < q) (hp : 1 ≤ p) :
    (plot_spectrum_core M q p N).Mdot1 + (plot_spectrum_core M q p N).Mdot2
      = Mdot_acc (M * Msun) 1.0 := by
  have h1q : (1 : ℝ) + q ≠ 0 := by positivity
  have h1p : (1 : ℝ) + p ≠ 0 := by nlinarith
  have htsal : tsal ≠ 0 := by norm_num [tsal, year]
  have hqne : q ≠ 0 := ne_of_gt hq
  simp only [plot_spectrum_core, Mdot_acc]
  field_simp
  ring

/-- Witness for C2 at `M = q = p = N = 1`. -/
theorem C2_witness :
    (plot_spectrum_core 1 1 1 1).Mdot1 + (plot_spectrum_core 1 1 1 1).Mdot2
      = Mdot_acc (1 * Msun) 1.0 :=
  C2_accretion_partition 1 1 1 1 (by norm_num) (le_refl 1)

/-- Claim C3: for a disk with `Rout < R0` (and any mass, accretion rate
and step fraction), `disk_spectrum` returns an all-zero intensity array
of length 998 and only fires the warning branch; the model is a total
function, so no exception can occur. -/
theorem C3_zero_disk (M Mdot R0 Rout δ : ℝ) (hR0 : 0 ≤ R0) (hout : Rout < R0) :
    disk_spectrum_Inu M Mdot R0 Rout δ = List.replicate 998 0 ∧
      (disk_spectrum_Inu M Mdot R0 Rout δ).length = 998 ∧ warns R0 Rout := by
  have hmul : R0 ≤ R0 * 1.0001 := by nlinarith
  have hn : numSteps R0 Rout δ = 0 :=
    numSteps_eq_zero (le_of_lt (lt_of_lt_of_le hout hmul))
  have hz : disk_spectrum_Inu M Mdot R0 Rout δ = List.replicate 998 0 :=
    disk_spectrum_Inu_eq_zero hn
  exact ⟨hz, by rw [hz, List.length_replicate], hout⟩

/-- Witness for C3 at `M = Mdot = 1`, `R0 = 2`, `Rout = 1`, `δ = 1/10`. -/
theorem C3_witness :
    disk_spectrum_Inu 1 1 2 1 (1 / 10) = List.replicate 998 0 ∧
      (disk_spectrum_Inu 1 1 2 1 (1 / 10)).length = 998 ∧ warns 2 1 :=
  C3_zero_disk 1 1 2 1 (1 / 10) (by norm_num) (by norm_num)

/-- Claim C4: the failing behaviour at an invalid domain input.
`plot_spectrum` performs no validation: at total mass `-1` (solar
masses) it silently computes a negative primary mass `-1e33 g` and
proceeds, instead of failing fast with a descriptive domain error. -/
theorem C4_no_validation : (plot_spectrum_core (-1) 1 1 1).M1 = -(1e33) := by
  simp only [plot_spectrum_core]
  norm_num [Msun]

/-- Claim C5: the total luminosity is the exact elementwise sum of the
three per-disk luminosities in every frequency bin. -/
theorem C5_spectrum_additivity (M q p N : ℝ) (i : ℕ) (hi : i < 998) :
    (plot_spectrum_core M q p N).Lnutot.getD i 0
      = (plot_spectrum_core M q p N).Lnu1.getD i 0
        + (plot_spectrum_core M q p N).Lnu2.getD i 0
        + (plot_spectrum_core M q p N).Lnu3.getD i 0 := by
  simp only [plot_spectrum_core, disk_spectrum_Inu, nu_c, zipWith_map_same]
  rw [getD_map_range _ _ _ hi, getD_map_range _ _ _ hi, getD_map_range _ _ _ hi,
    getD_map_range _ _ _ hi]

/-- Witness for C5 at `M = q = p = N = 1`, bin 0. -/
theorem C5_witness :
    (plot_spectrum_core 1 1 1 1).Lnutot.getD 0 0
      = (plot_spectrum_core 1 1 1 1).Lnu1.getD 0 0
        + (plot_spectrum_core 1 1 1 1).Lnu2.getD 0 0
        + (plot_spectrum_core 1 1 1 1).Lnu3.getD 0 0 :=
  C5_spectrum_additivity 1 1 1 1 0 (by norm_num)

/-- Claim C6: the frequency grid has exactly 999 log-spaced edges
spanning `[1e12, 1e19]` Hz (consecutive edges differ by the constant
factor `10^(7/998)`), the 998 bin centers are the arithmetic means of
adjacent edges, and every returned intensity and luminosity sequence
has exactly 998 entries aligned to the bin centers. -/
theorem C6_grid_consistency :
    nu_v.length = 999 ∧ nu_c.length = 998
    ∧ nu_v.getD 0 0 = 1e12 ∧ nu_v.getD 998 0 = 1e19
    ∧ (∀ i : ℕ, nu_edge (i + 1) = nu_edge i * (10 : ℝ) ^ ((7 : ℝ) / 998))
    ∧ (∀ i : ℕ, i < 998 → nu_c.getD i 0 = 0.5 * (nu_v.getD (i + 1) 0 + nu_v.getD i 0))
    ∧ (∀ M Mdot R0 Rout δ : ℝ, (disk_spectrum_Inu M Mdot R0 Rout δ).length = 998)
    ∧ (∀ M Mdot R0 Rout δ : ℝ, ∀ i : ℕ, i < 998 →
        (disk_spectrum_Inu M Mdot R0 Rout δ).getD i 0 = Inu_at M Mdot R0 Rout δ (nu_center i))
    ∧ (∀ M q p N : ℝ, (plot_spectrum_core M q p N).Lnu1.length = 998
        ∧ (plot_spectrum_core M q p N).Lnu2.length = 998
        ∧ (plot_spectrum_core M q p N).Lnu3.length = 998
        ∧ (plot_spectrum_core M q p N).Lnutot.length = 998) := by
  refine ⟨by simp [nu_v], by simp [nu_c], ?_, ?_, ?_, ?_, ?_, ?_, ?_⟩
  · have he : nu_v.getD 0 0 = nu_edge 0 := getD_map_range nu_edge 999 0 (by norm_num)
    rw [he]
    have hc : ((12 : ℝ) + 7 * ((0 : ℕ) : ℝ) / 998) = ((12 : ℕ) : ℝ) := by norm_num
    rw [nu_edge, hc, Real.rpow_natCast]
    norm_num
  · have he : nu_v.getD 998 0 = nu_edge 998 := getD_map_range nu_edge 999 998 (by norm_num)
    rw [he]
    have hc : ((12 : ℝ) + 7 * ((998 : ℕ) : ℝ) / 998) = ((19 : ℕ) : ℝ) := by norm_num
    rw [nu_edge, hc, Real.rpow_natCast]
    norm_num
  · intro i
    rw [nu_edge, nu_edge, ← Real.rpow_add (by norm_num : (0 : ℝ) < 10)]
    congr 1
    push_cast
    ring
  · intro i hi
    rw [show nu_c.getD i 0 = nu_center i from getD_map_range nu_center 998 i hi,
      show nu_v.getD (i + 1) 0 = nu_edge (i + 1) from
        getD_map_range nu_edge 999 (i + 1) (by omega),
      show nu_v.getD i 0 = nu_edge i from getD_map_range nu_edge 999 i (by omega)]
    rw [nu_center]
  · intro M Mdot R0 Rout δ
    simp [disk_spectrum_Inu]
  · intro M Mdot R0 Rout δ i hi
    exact getD_map_range _ 998 i hi
  · intro M q p N
    refine ⟨?_, ?_, ?_, ?_⟩ <;>
      simp [plot_spectrum_core, disk_spectrum_Inu, nu_c, zipWith_map_same]

/-- Witness for C6: concrete instances of the quantified clauses. -/
theorem C6_witness :
    nu_v.length = 999
    ∧ nu_edge 1 = nu_edge 0 * (10 : ℝ) ^ ((7 : ℝ) / 998)
    ∧ nu_c.getD 0 0 = 0.5 * (nu_v.getD 1 0 + nu_v.getD 0 0)
    ∧ (disk_spectrum_Inu 1 1 2 3 (1 / 10)).length = 998 :=
  ⟨C6_grid_consistency.1,
    C6_grid_consistency.2.2.2.2.1 0,
    C6_grid_consistency.2.2.2.2.2.1 0 (by norm_num),
    C6_grid_consistency.2.2.2.2.2.2.1 1 1 2 3 (1 / 10)⟩

/-- Claim C7: for every mass ratio `q` in `(0, 1]`, the Hill radius
fraction `HillR(q)` lies strictly between `0` and `0.5`. -/
theorem C7_hill_bounds (q : ℝ) (hq : 0 < q) (hq1 : q ≤ 1) :
    0 < HillR q ∧ HillR q < 0.5 := by
  set v : ℝ := q ^ ((1 : ℝ) / 3) with hv_def
  have hv : 0 < v := Real.rpow_pos_of_pos hq _
  have hv1 : v ≤ 1 := Real.rpow_le_one hq.le hq1 (by norm_num)
  have hu : q ^ ((2 : ℝ) / 3) = v ^ 2 := by
    rw [hv_def, ← Real.rpow_natCast (q ^ ((1 : ℝ) / 3)) 2, ← Real.rpow_mul hq.le]
    norm_num
  have hlog : 0 < Real.log (1 + v) := Real.log_pos (by linarith)
  have hlow : v / (1 + v) ≤ Real.log (1 + v) := by
    have h1 : Real.log ((1 + v)⁻¹) ≤ (1 + v)⁻¹ - 1 :=
      Real.log_le_sub_one_of_pos (by positivity)
    rw [Real.log_inv] at h1
    have h2 : (1 : ℝ) - (1 + v)⁻¹ = v / (1 + v) := by
      field_simp
    linarith
  have hden : 0 < 0.6 * (q ^ ((2 : ℝ) / 3)) + Real.log (1 + q ^ ((1 : ℝ) / 3)) := by
    rw [hu, ← hv_def]
    positivity
  constructor
  · rw [HillR]
    apply div_pos _ hden
    rw [hu]; positivity
  · rw [HillR, div_lt_iff₀ hden, hu, ← hv_def]
    have key : v ≤ Real.log (1 + v) * (1 + v) := by
      have h3 := (div_le_iff₀ (by positivity : (0 : ℝ) < 1 + v)).mp hlow
      linarith
    have hLv : Real.log (1 + v) * v ≤ Real.log (1 + v) :=
      mul_le_of_le_one_right hlog.le hv1
    have h2L : v ≤ 2 * Real.log (1 + v) := by nlinarith
    have hv2 : v ^ 2 ≤ v := by nlinarith
    nlinarith

/-- Witness for C7 at `q = 1`. -/
theorem C7_witness : 0 < HillR 1 ∧ HillR 1 < 0.5 :=
  C7_hill_bounds 1 one_pos (le_refl 1)

/-- Claim C8: for total mass `M > 0` and mass ratio `q > 0`, the derived
masses satisfy `M1 + M2 = M` (exactly, in grams) and `M2 = q * M1`. -/
theorem C8_mass_conservation (M q p N : ℝ) (hM : 0 < M) (hq : 0 < q) :
    (plot_spectrum_core M q p N).M1 + (plot_spectrum_core M q p N).M2 = M * Msun ∧
      (plot_spectrum_core M q p N).M2 = q * (plot_spectrum_core M q p N).M1 := by
  have h1q : (1 : ℝ) + q ≠ 0 := by positivity
  constructor
  · simp only [plot_spectrum_core]
    field_simp
    ring
  · simp only [plot_spectrum_core]
    ring

/-- Witness for C8 at `M = q = p = N = 1`. -/
theorem C8_witness :
    (plot_spectrum_core 1 1 1 1).M1 + (plot_spectrum_core 1 1 1 1).M2 = 1 * Msun ∧
      (plot_spectrum_core 1 1 1 1).M2 = 1 * (plot_spectrum_core 1 1 1 1).M1 :=
  C8_mass_conservation 1 1 1 1 (by norm_num) (by norm_num)

/-- Claim C9: for `R0 > 0` and step fraction `δ > 0`, the radial loop of
`disk_spectrum` performs finitely many iterations: `numSteps` is a step
index at which `R ≥ Rout` holds, and the loop condition `R < Rout` holds
at every earlier iteration. -/
theorem C9_loop_terminates (R0 Rout δ : ℝ) (hR0 : 0 < R0) (hδ : 0 < δ) :
    ¬ stepR R0 δ (numSteps R0 Rout δ) < Rout ∧
      ∀ m, m < numSteps R0 Rout δ → stepR R0 δ m < Rout := by
  constructor
  · exact Nat.sInf_mem (loop_reaches_exit R0 Rout δ hR0 hδ)
  · intro m hm
    have hm2 : m < sInf {n : ℕ | ¬ stepR R0 δ n < Rout} := hm
    have h3 := Nat.not_mem_of_lt_sInf hm2
    simpa [Set.mem_setOf_eq] using h3

/-- Witness for C9 at `R0 = 1`, `Rout = 3`, `δ = 1`. -/
theorem C9_witness : ¬ stepR 1 1 (numSteps 1 3 1) < 3 :=
  (C9_loop_terminates 1 3 1 (by norm_num) (by norm_num)).1

/-- Claim C10: for `0 < R0 ≤ Rout < R0 * 1.0001`, the loop body never
executes, so `disk_spectrum` returns an all-zero spectrum, yet the
warning branch (which requires `Rout < R0` strictly) stays silent. -/
theorem C10_silent_boundary_band (M Mdot R0 Rout δ : ℝ) (h0 : 0 < R0) (h1 : R0 ≤ Rout)
    (h2 : Rout < R0 * 1.0001) :
    disk_spectrum_Inu M Mdot R0 Rout δ = List.replicate 998 0 ∧ ¬ warns R0 Rout := by
  refine ⟨disk_spectrum_Inu_eq_zero (numSteps_eq_zero (le_of_lt h2)), ?_⟩
  show ¬ Rout < R0
  exact not_lt.mpr h1

/-- Witness for C10 at `M = Mdot = 1`, `R0 = Rout = 1`, `δ = 1`. -/
theorem C10_witness :
    disk_spectrum_Inu 1 1 1 1 1 = List.replicate 998 0 ∧ ¬ warns 1 1 :=
  C10_silent_boundary_band 1 1 1 1 1 (by norm_num) (le_refl 1) (by norm_num)

end

end BinaryDiskSpectrum
